import Mathlib

/-!
Shallow embedding of the orchestration helpers of the repository
(`core/utils/effect-flow-base.ts` and `core/utils/route-utils.ts`, both given
in the Code Appendix of `architecture-guide.md`).

Reactive code is modelled over a discrete global timeline: a list of events,
each either a dispatched action or a store-state update.  Event number `j`
(0-based) happens at time `j + 1`; time `0` is subscription time, at which the
store already holds its initial state.  An observable is modelled by its timed
emission trace together with an optional completion time and an optional error
notification, computed over the whole timeline; combinators (`filter`, `map`,
`take(1)`, `switchMap`, `catchError`, `race`, `combineLatest`) are translated
operator by operator from their RxJS semantics on such traces.
-/

/-- JavaScript runtime values, as far as the helpers inspect them
(the helpers only ever test truthiness and pass values through). -/
inductive JSVal where
  | undef
  | nul
  | boolean (b : Bool)
  | num (n : Int)
  | str (s : String)
deriving DecidableEq, Repr

/-- Source: `function isTruthy<T>(v: T): boolean` returning `!!v` — the single
definition of "ready" used by `EffectFlowBase` (JS truthiness on the modelled
value universe: `undefined`, `null`, `false`, `0`, the empty string are falsy). -/
def isTruthy : JSVal → Bool
  | .undef => false
  | .nul => false
  | .boolean b => b
  | .num n => n != 0
  | .str s => s != ""

/-- An NgRx action: a type tag plus (for this model) an opaque payload. -/
structure ActionT where
  kind : String
  payload : JSVal
deriving DecidableEq, Repr

/-- An `ActionCreator` is identified by the action type it creates. -/
abbrev ActionCreatorT := String

/-- Calling an action creator with no arguments (`cfg.abortWith()`). -/
def mkAction (c : ActionCreatorT) : ActionT := ⟨c, .undef⟩

/-- One event of the global timeline: an action dispatched on `actions$`,
or a store state update. -/
inductive GEvent (σ : Type) where
  | act (a : ActionT)
  | setState (s : σ)
deriving DecidableEq, Repr

/-- An observable, modelled by its timed behaviour over the whole timeline:
the emissions it delivers (time, value), the time it completes (if it does),
and the error notification it terminates with (if any). -/
structure Obs (α : Type) where
  emits : List (Nat × α)
  comp : Option Nat
  err : Option (Nat × JSVal)
deriving DecidableEq, Repr

namespace Obs

/-- The `map` operator. -/
def mapO (f : α → β) (o : Obs α) : Obs β :=
  ⟨o.emits.map (fun p => (p.1, f p.2)), o.comp, o.err⟩

/-- The `filter` operator. -/
def filterO (p : α → Bool) (o : Obs α) : Obs α :=
  ⟨o.emits.filter (fun e => p e.2), o.comp, o.err⟩

/-- The `take(1)` operator: mirrors the first emission and completes with it;
with no source emission it just mirrors the source's terminal behaviour.
(The sources it is applied to here never error before their first value.) -/
def take1 (o : Obs α) : Obs α :=
  match o.emits with
  | [] => ⟨[], o.comp, o.err⟩
  | e :: _ => ⟨[e], some e.1, none⟩

/-- RxJS `of(x)` subscribed at time `t`: emits `x` and completes immediately. -/
def ofAt (t : Nat) (x : α) : Obs α :=
  ⟨[(t, x)], some t, none⟩

/-- The `catchError(h)` operator: on an error notification at time `t` with payload `e`,
switch to the observable `h t e` subscribed at that instant. -/
def catchE (o : Obs α) (h : Nat → JSVal → Obs α) : Obs α :=
  match o.err with
  | none => o
  | some (t, e) =>
      let r := h t e
      ⟨o.emits ++ r.emits, r.comp, r.err⟩

/-- Later of two optional completion times (`switchMap` completes once the
source has completed and the last inner observable has completed). -/
def maxComp : Option Nat → Option Nat → Option Nat
  | some a, some b => some (max a b)
  | _, _ => none

/-- Core of `switchMap`: each source emission `(t, v)` subscribes the inner
observable `f t v`; a later source emission unsubscribes the running inner, so
its emissions are clipped to before the next source emission.  The inner
observables produced here (`cfg.then(...)` piped through `map`/`catchError`)
never error, so error propagation from an overlapped inner is not modelled. -/
def switchMapGo (f : Nat → α → Obs β) (srcComp : Option Nat) :
    List (Nat × α) → Obs β
  | [] => ⟨[], srcComp, none⟩
  | [(t, v)] =>
      let i := f t v
      ⟨i.emits, maxComp srcComp i.comp, i.err⟩
  | (t, v) :: (u, w) :: rest =>
      let i := f t v
      let tail := switchMapGo f srcComp ((u, w) :: rest)
      ⟨(i.emits.filter (fun p => p.1 < u)) ++ tail.emits, tail.comp, tail.err⟩

/-- The `switchMap` operator (inner observables are start-time indexed). -/
def switchMapO (o : Obs α) (f : Nat → α → Obs β) : Obs β :=
  switchMapGo f o.comp o.emits

/-- RxJS `race(a, b)`: mirrors whichever source delivers a value first; on a tie the
first-subscribed source wins (with synchronous delivery RxJS picks the source
subscribed first).  The sources raced here (`abort$`, `run$`) never complete
and never error before their first value, so only values select the winner. -/
def race (a b : Obs α) : Obs α :=
  match a.emits.head?, b.emits.head? with
  | none, none => ⟨[], none, none⟩
  | some _, none => a
  | none, some _ => b
  | some pa, some pb => if pa.1 ≤ pb.1 then a else b

end Obs

/-- The store state at time `t`: the initial state folded through the state
updates among the first `t` events (event `j` happens at time `j + 1`, so the
state sampled at an action's time already includes every earlier update and
not the later ones). -/
def stateAt {σ : Type} (s₀ : σ) (tl : List (GEvent σ)) (t : Nat) : σ :=
  (tl.take t).foldl
    (fun s e => match e with | .setState u => u | .act _ => s) s₀

/-- The raw emissions of the store's state stream: the current state at
subscription time `0`, then each updated state at its event's time. -/
def stateEmissions {σ : Type} (s₀ : σ) (tl : List (GEvent σ)) :
    List (Nat × σ) :=
  (0, s₀) :: tl.enum.filterMap
    (fun p => match p.2 with
      | .setState s => some (p.1 + 1, s)
      | .act _ => none)

/-- The `distinctUntilChanged` operator on a timed trace, given the last delivered value. -/
def dedupFrom [DecidableEq α] : α → List (Nat × α) → List (Nat × α)
  | _, [] => []
  | last, (t, v) :: rest =>
      if v = last then dedupFrom last rest else (t, v) :: dedupFrom v rest

/-- NgRx `store.select(sel)`: maps the state stream through the selector and
applies `distinctUntilChanged` (as NgRx `Store.select` does); the stream of a
long-lived store never completes and never errors. -/
def selectObs {σ : Type} (sel : σ → JSVal) (s₀ : σ) (tl : List (GEvent σ)) :
    Obs JSVal :=
  match (stateEmissions s₀ tl).map (fun p => (p.1, sel p.2)) with
  | [] => ⟨[], none, none⟩
  | (t, v) :: rest => ⟨(t, v) :: dedupFrom v rest, none, none⟩

/-- The `actions$` stream: the stream of dispatched actions, at their event times;
never completes, never errors. -/
def actionsObs {σ : Type} (tl : List (GEvent σ)) : Obs ActionT :=
  ⟨tl.enum.filterMap
      (fun p => match p.2 with
        | .act a => some (p.1 + 1, a)
        | .setState _ => none),
    none, none⟩

/-- The `ofType(...creators)` operator: keep the actions whose type matches one of the
given creators. -/
def ofTypeO {σ : Type} (creators : List ActionCreatorT)
    (tl : List (GEvent σ)) : Obs ActionT :=
  (actionsObs tl).filterO (fun a => creators.contains a.kind)

/-- Emissions of a list of sources, tagged with the source index:
`(time, source index, value)` triples. -/
def taggedEmissions (streams : List (Obs α)) : List (Nat × Nat × α) :=
  (streams.enum.map
    (fun s => s.2.emits.map (fun e => (e.1, s.1, e.2)))).flatten

/-- Delivery order of tagged emissions: by time, ties broken by source index
(sources reacting to the same store update are notified in subscription
order, which for `combineLatest` is list order). -/
def deliveryLE (x y : Nat × Nat × α) : Bool :=
  x.1 < y.1 || (x.1 == y.1 && x.2.1 ≤ y.2.1)

/-- Insertion sort by a boolean order (used to put tagged emissions in
delivery order). -/
def insertBy (le : α → α → Bool) (x : α) : List α → List α
  | [] => [x]
  | y :: ys => if le x y then x :: y :: ys else y :: insertBy le x ys

/-- Sort by a boolean order. -/
def sortBy (le : α → α → Bool) : List α → List α
  | [] => []
  | x :: xs => insertBy le x (sortBy le xs)

/-- All latches filled: the latest value of every source, once each has
emitted at least once. -/
def allSome : List (Option α) → Option (List α)
  | [] => some []
  | none :: _ => none
  | some x :: rest => (allSome rest).map (x :: ·)

/-- Core of `combineLatest`: process the tagged emissions in delivery order,
updating the per-source latch; once every source has a latest value, each
delivery emits the full tuple of latest values. -/
def clGo (latch : List (Option α)) : List (Nat × Nat × α) → List (Nat × List α)
  | [] => []
  | (t, i, v) :: rest =>
      let latch2 := latch.set i (some v)
      match allSome latch2 with
      | some vs => (t, vs) :: clGo latch2 rest
      | none => clGo latch2 rest

/-- RxJS `combineLatest(streams)` on store-select sources: emits the tuple of
latest values on every delivery once all sources have emitted; the sources
(store selects) never complete or error, so neither does the combination. -/
def combineLatestO (streams : List (Obs α)) : Obs (List α) :=
  ⟨clGo (streams.map (fun _ => none))
      (sortBy deliveryLE (taggedEmissions streams)),
    none, none⟩

/-! ## EffectFlowBase -/

/-- The `waitForTruthy` argument of `then`: a single selector or an array of
selectors (the TS union `MemoizedSelector | Array<MemoizedSelector>`). -/
inductive Prereqs (σ : Type) where
  | single (sel : σ → JSVal)
  | multi (sels : List (σ → JSVal))

/-- The runtime value `waitForTruthy` hands to `cfg.then` (the TS return union
`T | any[]`, which `then` casts to `TPrereq` unchecked): a single selector's
value, or the array of all selectors' values. -/
abbrev PrereqVal := Sum JSVal (List JSVal)

namespace EffectFlowBase

/-- Single-selector branch of `waitForTruthy`:
`this.store.select(sel).pipe(filter(isTruthy))`.  Note the source has no
`take(1)` here: the filtered select stream passes every truthy value through
and, like the select stream itself, never completes. -/
def waitForTruthySingle {σ : Type} (sel : σ → JSVal) (s₀ : σ)
    (tl : List (GEvent σ)) : Obs JSVal :=
  (selectObs sel s₀ tl).filterO isTruthy

/-- Array branch of `waitForTruthy`:
`combineLatest(sels.map(s => this.store.select(s))).pipe(filter(vs => vs.every(isTruthy)))`. -/
def waitForTruthyArr {σ : Type} (sels : List (σ → JSVal)) (s₀ : σ)
    (tl : List (GEvent σ)) : Obs (List JSVal) :=
  (combineLatestO (sels.map (fun s => selectObs s s₀ tl))).filterO
    (fun vs => vs.all isTruthy)

/-- Source: `private waitForTruthy(selectorOrSelectors)` — dispatch on
`Array.isArray`, with the return shape of the TS union made explicit. -/
def waitForTruthy {σ : Type} (p : Prereqs σ) (s₀ : σ)
    (tl : List (GEvent σ)) : Obs PrereqVal :=
  match p with
  | .single sel => (waitForTruthySingle sel s₀ tl).mapO Sum.inl
  | .multi sels => (waitForTruthyArr sels s₀ tl).mapO Sum.inr

/-- NgRx `concatLatestFrom` of `() => this.store.select(loadedSelector)`: pair each
source emission with the latest value of the select stream at that instant
(the select stream delivers the current selector value synchronously, so the
sampled value is the selector applied to the store state at the emission's
time). -/
def concatLatestFromSelect {σ : Type} (sel : σ → JSVal) (s₀ : σ)
    (tl : List (GEvent σ)) (src : List (Nat × ActionT)) :
    List (Nat × (ActionT × JSVal)) :=
  src.map (fun p => (p.1, (p.2, sel (stateAt s₀ tl p.1))))

/-- Source: `skipIfLoaded(loadedSelector)` applied to a source stream of actions:
pull in the latest loaded flag for each triggering action
(`concatLatestFrom`), only allow through when not loaded
(`filter(([, loaded]) => !loaded)`), strip the flag back off
(`map(([action]) => action)`). -/
def skipIfLoaded {σ : Type} (sel : σ → JSVal) (s₀ : σ)
    (tl : List (GEvent σ)) (src : Obs ActionT) : Obs ActionT :=
  let withLatest := concatLatestFromSelect sel s₀ tl src.emits
  let filtered := withLatest.filter (fun p => !isTruthy p.2.2)
  ⟨filtered.map (fun p => (p.1, p.2.1)), src.comp, src.err⟩

end EffectFlowBase

/-- The async operation handed to `then` as `cfg.then`, restricted to the
contract the spec states for it (one eventual result or one eventual
failure): subscribed at time `t` it emits its result at `t + delay` and
completes, or errors at `t + delay`. -/
structure AsyncOp (ρ : Type) where
  delay : Nat
  outcome : Except JSVal ρ

/-- The observable of an `AsyncOp` subscribed at `start`. -/
def AsyncOp.toObs (op : AsyncOp ρ) (start : Nat) : Obs ρ :=
  match op.outcome with
  | .ok r => ⟨[(start + op.delay, r)], some (start + op.delay), none⟩
  | .error e => ⟨[], none, some (start + op.delay, e)⟩

/-- The configuration record of `EffectFlowBase.then`.  `abortOn` is already
in list form (the source normalises `cfg.abortOn` to `abortCreators` with
`Array.isArray`); `thenOp` is the `then` field (renamed: `then` is reserved);
its argument is the prerequisite value `waitForTruthy` emitted. -/
structure ThenCfg (σ ρ : Type) where
  waitForTruthy : Prereqs σ
  abortOn : List ActionCreatorT
  abortWith : ActionCreatorT
  thenOp : PrereqVal → AsyncOp ρ
  onSuccess : ρ → ActionT
  onError : JSVal → ActionT

namespace EffectFlowBase

/-- Source: `abort$` is `this.actions$.pipe(ofType(...abortCreators), take(1),
map(() => cfg.abortWith() as Action))`. -/
def abortObs {σ ρ : Type} (cfg : ThenCfg σ ρ) (tl : List (GEvent σ)) :
    Obs ActionT :=
  ((ofTypeO cfg.abortOn tl).take1).mapO (fun _ => mkAction cfg.abortWith)

/-- Source: `prereq$` is `this.waitForTruthy(cfg.waitForTruthy).pipe(take(1), map(v =>
v as TPrereq))` (the cast is the identity on the modelled value union). -/
def prereqObs {σ ρ : Type} (cfg : ThenCfg σ ρ) (s₀ : σ)
    (tl : List (GEvent σ)) : Obs PrereqVal :=
  (waitForTruthy cfg.waitForTruthy s₀ tl).take1

/-- Source: `run$` is `prereq$.pipe(switchMap(prereq => cfg.then(prereq).pipe(
map(result => cfg.onSuccess(result)), catchError(err =>
of(cfg.onError(err))))))`. -/
def runObs {σ ρ : Type} (cfg : ThenCfg σ ρ) (s₀ : σ)
    (tl : List (GEvent σ)) : Obs ActionT :=
  (prereqObs cfg s₀ tl).switchMapO
    (fun t v =>
      (((cfg.thenOp v).toObs t).mapO cfg.onSuccess).catchE
        (fun u e => Obs.ofAt u (cfg.onError e)))

/-- Source: `protected then(cfg)` is `race(abort$, run$)` over the flow's timeline. -/
def «then» {σ ρ : Type} (cfg : ThenCfg σ ρ) (s₀ : σ)
    (tl : List (GEvent σ)) : Obs ActionT :=
  Obs.race (abortObs cfg tl) (runObs cfg s₀ tl)

end EffectFlowBase

/-- Time of the first action matching `abortOn` (the emission `take(1)`
would pick on `abort$`). -/
def abortFirstTime {σ ρ : Type} (cfg : ThenCfg σ ρ)
    (tl : List (GEvent σ)) : Option Nat :=
  ((ofTypeO cfg.abortOn tl).emits.head?).map (fun p => p.1)

/-- First emission of the prerequisite waiter (the one `take(1)` keeps). -/
def prereqFirst {σ ρ : Type} (cfg : ThenCfg σ ρ) (s₀ : σ)
    (tl : List (GEvent σ)) : Option (Nat × PrereqVal) :=
  (EffectFlowBase.waitForTruthy cfg.waitForTruthy s₀ tl).emits.head?

/-- Whether `cfg.then` is ever invoked during the flow.  `switchMap` invokes
it synchronously when `prereq$` delivers its value; `race` unsubscribes `run$`
(and with it the pending `prereq$` subscription) the instant the first raced
value arrives, which before any `run$` emission can only be `abort$`'s value.
So the async operation starts iff the prerequisites deliver strictly before
the first abort action (or there is no abort action at all). -/
def asyncInvoked {σ ρ : Type} (cfg : ThenCfg σ ρ) (s₀ : σ)
    (tl : List (GEvent σ)) : Bool :=
  match prereqFirst cfg s₀ tl, abortFirstTime cfg tl with
  | none, _ => false
  | some _, none => true
  | some p, some ta => p.1 < ta

/-- The single action the mapped-and-caught inner observable of `run$`
delivers: `onSuccess` of the result, or `onError` of the error. -/
def outcomeAction {σ ρ : Type} (cfg : ThenCfg σ ρ) (v : PrereqVal) : ActionT :=
  match (cfg.thenOp v).outcome with
  | .ok r => cfg.onSuccess r
  | .error e => cfg.onError e

/-! ## Route utilities (`core/utils/route-utils.ts`) -/

/-- A route segment's `paramMap`, as an association list;
`paramMap.get(key)` returns the value of the first matching entry or null. -/
abbrev ParamMap := List (String × String)

/-- Source: `paramMap.get(key)`. -/
def ParamMap.get (m : ParamMap) (key : String) : Option String :=
  (m.find? (fun e => e.1 == key)).map (fun e => e.2)

/-- An `ActivatedRouteSnapshot`, reduced to what `getParamFromSelfOrParents`
reads from it: `pathFromRoot`, the segments' param maps from the root (index
`0`) down to the most specific segment (last index). -/
structure RouteSnapshot where
  pathFromRoot : List ParamMap
deriving DecidableEq, Repr

/-- The descending-index loop of `getParamFromSelfOrParents`:
`for (let i = route.pathFromRoot.length - 1; i >= 0; i--)`, returning the
first non-null `paramMap.get(key)`.  The recursion consults the tail (the
deeper segments) first, then the head — exactly the loop's order. -/
def getParamGo (key : String) : List ParamMap → Option String
  | [] => none
  | m :: rest =>
      match getParamGo key rest with
      | some v => some v
      | none => m.get key

/-- Source: `getParamFromSelfOrParents(route, key)`. -/
def getParamFromSelfOrParents (route : RouteSnapshot) (key : String) :
    Option String :=
  getParamGo key route.pathFromRoot

/-- The payload construction of the adapter returned by `dispatchWithParams`:
`Object.fromEntries(params.map(k => { const v = getParamFromSelfOrParents(
route, k); if (v === null) throw new Error(...); return [k, v]; }))`.
`params.map` evaluates left to right, so the thrown error is the one of the
first unresolvable key; the thrown `Error`'s message is modelled by its text
(the source interpolates the key between quotes). -/
def buildPayload (params : List String) (route : RouteSnapshot) :
    Except String (List (String × String)) :=
  match params with
  | [] => .ok []
  | k :: rest =>
      match getParamFromSelfOrParents route k with
      | none => .error ("Missing route param " ++ k)
      | some v => (buildPayload rest route).map (fun ps => (k, v) :: ps)

/-- One invocation of the adapter returned by `dispatchWithParams`, with the
store's dispatched-action log threaded explicitly: build the payload (which
throws, modelled by `Except.error`, on the first unresolvable key — before
any dispatch), then `inject(Store).dispatch(action(payload)); return true`.
The thrown case leaves the log exactly as it was. -/
def dispatchWithParams (action : List (String × String) → ActionT)
    (params : List String) (route : RouteSnapshot) (log : List ActionT) :
    List ActionT × Except String Bool :=
  match buildPayload params route with
  | .error e => (log, .error e)
  | .ok payload => (log ++ [action payload], .ok true)

/-! ## Concrete instances used to instantiate the theorems -/

/-- A flow configuration over a store whose whole state is the prerequisite
value: wait for the state itself to be truthy, abort on `"ABORT"` actions,
run an async operation that succeeds with `42` after `5` time units. -/
def exCfgOk : ThenCfg JSVal JSVal where
  waitForTruthy := .single id
  abortOn := ["ABORT"]
  abortWith := "ABORTED"
  thenOp := fun _ => ⟨5, .ok (JSVal.num 42)⟩
  onSuccess := fun r => ⟨"OK", r⟩
  onError := fun e => ⟨"ERR", e⟩

/-- The same configuration with an async operation that errors. -/
def exCfgErr : ThenCfg JSVal JSVal :=
  { exCfgOk with thenOp := fun _ => ⟨5, .error (JSVal.str "boom")⟩ }

/-- A dispatched abort action. -/
def exAbort : GEvent JSVal := .act ⟨"ABORT", .undef⟩

/-- Selector of the first component of a list-shaped store state. -/
def selFst : List JSVal → JSVal := fun s =>
  match s with
  | [] => JSVal.undef
  | v :: _ => v

/-- Selector of the second component of a list-shaped store state. -/
def selSnd : List JSVal → JSVal := fun s => selFst (s.drop 1)

/-- A two-level route where both levels define `id` (root: `"root"`, leaf:
`"leaf"`) and only the leaf defines `sub`. -/
def exRoute : RouteSnapshot :=
  ⟨[[("id", "root")], [("id", "leaf"), ("sub", "s")]]⟩

/-- An action factory for the dispatcher examples (payload collapsed to its
size, which is all the example theorems need to identify it). -/
def exFactory : List (String × String) → ActionT :=
  fun p => ⟨"ENTERED", .num (Int.ofNat p.length)⟩

/-! ## Route-parameter resolution and dispatch (claims C7, C8, C9, C10) -/

/-- If no segment of a suffix of the hierarchy defines the key, the
descending scan over that suffix yields null. -/
lemma getParamGo_eq_none (key : String) (ms : List ParamMap)
    (h : ∀ m ∈ ms, ParamMap.get m key = none) :
    getParamGo key ms = none := by
  induction ms with
  | nil => rfl
  | cons m rest ih =>
      have hrest : getParamGo key rest = none :=
        ih (fun x hx => h x (List.mem_cons_of_mem m hx))
      simp [getParamGo, hrest, h m (List.mem_cons_self m rest)]

/-- When every requested key resolves, the payload construction succeeds and
pairs each key, in order, with its resolved value. -/
lemma buildPayload_ok (params : List String) (route : RouteSnapshot)
    (f : String → String)
    (h : ∀ k ∈ params, getParamFromSelfOrParents route k = some (f k)) :
    buildPayload params route = .ok (params.map fun k => (k, f k)) := by
  induction params with
  | nil => rfl
  | cons a rest ih =>
      have ha : getParamFromSelfOrParents route a = some (f a) :=
        h a (List.mem_cons_self a rest)
      have hrest := ih (fun x hx => h x (List.mem_cons_of_mem a hx))
      simp [buildPayload, ha, hrest, Except.map]

/-- When some requested key does not resolve, the payload construction
throws. -/
lemma buildPayload_err (params : List String) (route : RouteSnapshot)
    (k : String) (hk : k ∈ params)
    (hmiss : getParamFromSelfOrParents route k = none) :
    ∃ e, buildPayload params route = .error e := by
  induction params with
  | nil => cases hk
  | cons a rest ih =>
      cases ha : getParamFromSelfOrParents route a with
      | none => exact ⟨"Missing route param " ++ a, by simp [buildPayload, ha]⟩
      | some v =>
          have hka : k ≠ a := by
            intro he
            rw [he, ha] at hmiss
            cases hmiss
          have hk2 : k ∈ rest := by
            cases List.mem_cons.mp hk with
            | inl h => exact absurd h hka
            | inr h => exact h
          obtain ⟨e, he⟩ := ih hk2
          exact ⟨e, by simp [buildPayload, ha, he, Except.map]⟩

/-- Claim C7: parameter resolution scans the route hierarchy from the most
specific (deepest) segment up toward the root and returns the first non-null
value: whenever a segment defines the key and every segment deeper than it
does not, that segment's value is returned, whatever the shallower segments
(in particular the deepest defining level wins over any ancestor). -/
theorem C7_deepest_param_wins (pre post : List ParamMap) (m : ParamMap)
    (key v : String) (hm : ParamMap.get m key = some v)
    (hpost : ∀ m2 ∈ post, ParamMap.get m2 key = none) :
    getParamFromSelfOrParents ⟨pre ++ m :: post⟩ key = some v := by
  show getParamGo key (pre ++ m :: post) = some v
  induction pre with
  | nil => simp [getParamGo, getParamGo_eq_none key post hpost, hm]
  | cons p rest ih => simp [getParamGo, ih]

/-- Witness for C7 on the concrete two-level route where both levels define
`id`: the leaf's value is returned. -/
theorem C7_deepest_param_wins_witness :
    ParamMap.get [("id", "leaf"), ("sub", "s")] "id" = some "leaf" ∧
    (∀ m2 ∈ ([] : List ParamMap), ParamMap.get m2 "id" = none) ∧
    getParamFromSelfOrParents exRoute "id" = some "leaf" :=
  ⟨by decide, (by intro m2 h; cases h),
    C7_deepest_param_wins [[("id", "root")]] [] [("id", "leaf"), ("sub", "s")]
      "id" "leaf" (by decide) (by intro m2 h; cases h)⟩

/-- Claim C8: if any requested key resolves to no value anywhere in the route
hierarchy, the adapter returned by `dispatchWithParams` fails synchronously
with a thrown error (modelled by `Except.error`), rather than substituting a
default or producing a payload with a null value. -/
theorem C8_missing_key_throws (action : List (String × String) → ActionT)
    (params : List String) (route : RouteSnapshot) (log : List ActionT)
    (k : String) (hk : k ∈ params)
    (hmiss : getParamFromSelfOrParents route k = none) :
    ∃ e, (dispatchWithParams action params route log).2 = Except.error e := by
  obtain ⟨e, he⟩ := buildPayload_err params route k hk hmiss
  exact ⟨e, by simp [dispatchWithParams, he]⟩

/-- Witness for C8: requesting the undefined key `zzz` on the concrete route
makes the adapter throw. -/
theorem C8_missing_key_throws_witness :
    "zzz" ∈ ["id", "zzz"] ∧
    getParamFromSelfOrParents exRoute "zzz" = none ∧
    ∃ e, (dispatchWithParams exFactory ["id", "zzz"] exRoute []).2 =
      Except.error e :=
  ⟨by decide, by decide,
    C8_missing_key_throws exFactory ["id", "zzz"] exRoute [] "zzz"
      (by decide) (by decide)⟩

/-- Claim C10: when some requested key cannot be resolved, no event is
dispatched at all — the error is thrown while building the payload, before
the dispatch call, so the store's action log is left unchanged. -/
theorem C10_error_dispatches_nothing
    (action : List (String × String) → ActionT) (params : List String)
    (route : RouteSnapshot) (log : List ActionT) (k : String)
    (hk : k ∈ params)
    (hmiss : getParamFromSelfOrParents route k = none) :
    (dispatchWithParams action params route log).1 = log := by
  obtain ⟨e, he⟩ := buildPayload_err params route k hk hmiss
  simp [dispatchWithParams, he]

/-- Witness for C10: the failing invocation on the concrete route leaves a
non-empty pre-existing action log exactly as it was. -/
theorem C10_error_dispatches_nothing_witness :
    "zzz" ∈ ["id", "zzz"] ∧
    getParamFromSelfOrParents exRoute "zzz" = none ∧
    (dispatchWithParams exFactory ["id", "zzz"] exRoute
        [⟨"X", .undef⟩]).1 = [⟨"X", .undef⟩] :=
  ⟨by decide, by decide,
    C10_error_dispatches_nothing exFactory ["id", "zzz"] exRoute
      [⟨"X", .undef⟩] "zzz" (by decide) (by decide)⟩

/-- Claim C9: when every requested key resolves, the adapter builds the
payload mapping each key to its resolved value, dispatches exactly the event
produced by the action factory (appended to the log before the call returns),
and returns the affirmative continue-navigation result `true`. -/
theorem C9_dispatch_and_continue (action : List (String × String) → ActionT)
    (params : List String) (route : RouteSnapshot) (log : List ActionT)
    (f : String → String)
    (h : ∀ k ∈ params, getParamFromSelfOrParents route k = some (f k)) :
    dispatchWithParams action params route log =
      (log ++ [action (params.map fun k => (k, f k))], Except.ok true) := by
  simp [dispatchWithParams, buildPayload_ok params route f h]

/-- Witness for C9 on the concrete route with both keys resolvable. -/
theorem C9_dispatch_and_continue_witness :
    (∀ k ∈ ["id", "sub"], getParamFromSelfOrParents exRoute k =
      some (if k == "id" then "leaf" else "s")) ∧
    dispatchWithParams exFactory ["id", "sub"] exRoute [] =
      ([exFactory (["id", "sub"].map
        fun k => (k, if k == "id" then "leaf" else "s"))], Except.ok true) :=
  ⟨by decide,
    C9_dispatch_and_continue exFactory ["id", "sub"] exRoute []
      (fun k => if k == "id" then "leaf" else "s") (by decide)⟩





/-! ## Idempotency guard (claim C5) -/

/-- The guarded stream is exactly the source filtered by "the loaded selector,
sampled on the store state current at the emission's time, is falsy". -/
lemma skipIfLoaded_emits {σ : Type} (sel : σ → JSVal) (s₀ : σ)
    (tl : List (GEvent σ)) (L : List (Nat × ActionT)) :
    ((EffectFlowBase.concatLatestFromSelect sel s₀ tl L).filter
        (fun p => !isTruthy p.2.2)).map (fun p => (p.1, p.2.1)) =
      L.filter (fun x => !isTruthy (sel (stateAt s₀ tl x.1))) := by
  induction L with
  | nil => rfl
  | cons x xs ih =>
      simp only [EffectFlowBase.concatLatestFromSelect, List.map_cons,
        List.filter_cons] at *
      by_cases hc : isTruthy (sel (stateAt s₀ tl x.1)) <;> simp [hc, ih]

/-- Claim C5: for every incoming action, `skipIfLoaded` synchronously samples
the current value of the loaded view at the moment the action arrives
(the store state at the action's time) and passes the action through exactly
when that value is not truthy, silently dropping it otherwise; and an absent
(`undefined`) value is falsy, hence treated the same as `false`, so the
action passes through. -/
theorem C5_skipIfLoaded_samples_current {σ : Type} (sel : σ → JSVal)
    (s₀ : σ) (tl : List (GEvent σ)) (t : Nat) (a : ActionT) :
    ((t, a) ∈ (EffectFlowBase.skipIfLoaded sel s₀ tl (actionsObs tl)).emits ↔
      (t, a) ∈ (actionsObs tl).emits ∧
        isTruthy (sel (stateAt s₀ tl t)) = false) ∧
    isTruthy JSVal.undef = false := by
  refine ⟨?_, rfl⟩
  show (t, a) ∈ ((EffectFlowBase.concatLatestFromSelect sel s₀ tl
      (actionsObs tl).emits).filter (fun p => !isTruthy p.2.2)).map
      (fun p => (p.1, p.2.1)) ↔ _
  rw [skipIfLoaded_emits]
  simp [List.mem_filter]

/-! ## Prerequisite waiter (claims C2 and C4) -/

/-- Claim C2, evaluated at a failing input (code bug): with the identity
selector over a store whose value is `1` (truthy) at subscription time and is
updated to `2` (still truthy) by the single event, the single-selector
`waitForTruthy` emits twice — once per truthy value — and never completes,
although its own doc comment (and the spec) promise exactly one emission
followed by completion; the lone `take(1)` lives in the caller `then`, not
here. -/
theorem C2_waitForTruthy_single_emits_repeatedly :
    (EffectFlowBase.waitForTruthySingle id (JSVal.num 1)
        [GEvent.setState (JSVal.num 2)]).emits =
      [(0, JSVal.num 1), (1, JSVal.num 2)] ∧
    (EffectFlowBase.waitForTruthySingle id (JSVal.num 1)
        [GEvent.setState (JSVal.num 2)]).comp = none := by decide

/-- Counterexample to claim C4 as stated: with two selectors that are both
truthy at subscription time and stay truthy across one store update, the
array `waitForTruthy` emits twice (it re-emits on every change while all
values are truthy) and never completes, refuting "emits once ... then
completes". -/
theorem C4_counterexample :
    (EffectFlowBase.waitForTruthyArr [selFst, selSnd]
        [JSVal.num 1, JSVal.num 2]
        [GEvent.setState [JSVal.num 1, JSVal.num 3]]).emits =
      [(0, [JSVal.num 1, JSVal.num 2]), (1, [JSVal.num 1, JSVal.num 3])] ∧
    (EffectFlowBase.waitForTruthyArr [selFst, selSnd]
        [JSVal.num 1, JSVal.num 2]
        [GEvent.setState [JSVal.num 1, JSVal.num 3]]).comp = none := by decide

/-- Filling a latch produces value tuples of the latch's length. -/
lemma allSome_length (l : List (Option α)) (vs : List α)
    (h : allSome l = some vs) : vs.length = l.length := by
  induction l generalizing vs with
  | nil => cases h; rfl
  | cons o rest ih =>
      cases o with
      | none => cases h
      | some x =>
          simp only [allSome, Option.map_eq_some'] at h
          obtain ⟨ws, hw, rfl⟩ := h
          simp [ih ws hw]

/-- Every `combineLatest` emission carries one latest value per source. -/
lemma clGo_mem_length (tg : List (Nat × Nat × α)) (latch : List (Option α))
    (q : Nat × List α) (hq : q ∈ clGo latch tg) :
    q.2.length = latch.length := by
  induction tg generalizing latch with
  | nil => cases hq
  | cons e rest ih =>
      obtain ⟨t, i, v⟩ := e
      simp only [clGo] at hq
      cases hall : allSome (latch.set i (some v)) with
      | none =>
          rw [hall] at hq
          have := ih (latch.set i (some v)) hq
          simpa [List.length_set] using this
      | some vs =>
          rw [hall] at hq
          cases hq with
          | head =>
              have := allSome_length _ _ hall
              simpa [List.length_set] using this
          | tail _ h2 =>
              have := ih (latch.set i (some v)) h2
              simpa [List.length_set] using this

/-- Claim C4 as amended: the array `waitForTruthy` never emits while any one
selector's latest value is falsy — every emission carries the full set of
latest values (one per selector) and all of them are truthy.  (It emits on
every change for which this holds, and does not complete; the single
notification the spec describes is obtained by the `take(1)` inside
`then`.) -/
theorem C4_amended_emissions_full_and_truthy {σ : Type}
    (sels : List (σ → JSVal)) (s₀ : σ) (tl : List (GEvent σ))
    (p : Nat × List JSVal)
    (hmem : p ∈ (EffectFlowBase.waitForTruthyArr sels s₀ tl).emits) :
    p.2.length = sels.length ∧ p.2.all isTruthy = true := by
  have h2 := hmem
  simp only [EffectFlowBase.waitForTruthyArr, Obs.filterO,
    List.mem_filter] at h2
  obtain ⟨hin, htr⟩ := h2
  refine ⟨?_, htr⟩
  simp only [combineLatestO] at hin
  have := clGo_mem_length _ _ _ hin
  simpa [List.length_map] using this

/-- Witness for the amended C4 at the counterexample's input: the first
emission carries one latest value per selector, all truthy. -/
theorem C4_amended_witness :
    (0, [JSVal.num 1, JSVal.num 2]) ∈ (EffectFlowBase.waitForTruthyArr
      [selFst, selSnd] [JSVal.num 1, JSVal.num 2]
      [GEvent.setState [JSVal.num 1, JSVal.num 3]]).emits ∧
    ([JSVal.num 1, JSVal.num 2].length = [selFst, selSnd].length ∧
      [JSVal.num 1, JSVal.num 2].all isTruthy = true) :=
  ⟨by decide,
    C4_amended_emissions_full_and_truthy [selFst, selSnd]
      [JSVal.num 1, JSVal.num 2] [GEvent.setState [JSVal.num 1, JSVal.num 3]]
      (0, [JSVal.num 1, JSVal.num 2]) (by decide)⟩

/-! ## The abort race (claims C1, C3, C6) -/

/-- Behaviour of `take(1)` on a source whose first emission is `e`. -/
lemma take1_of_head (o : Obs α) (e : Nat × α) (h : o.emits.head? = some e) :
    o.take1 = ⟨[e], some e.1, none⟩ := by
  cases hm : o.emits with
  | nil => rw [hm] at h; cases h
  | cons x xs =>
      rw [hm] at h
      injection h with h
      subst h
      simp [Obs.take1, hm]

/-- Behaviour of `take(1)` on a source that never emits. -/
lemma take1_of_none (o : Obs α) (h : o.emits = []) :
    o.take1 = ⟨[], o.comp, o.err⟩ := by
  simp [Obs.take1, h]

/-- The prerequisite waiter never completes (the filtered select streams and
the filtered `combineLatest` of select streams are over a long-lived store). -/
lemma waitForTruthy_comp {σ : Type} (p : Prereqs σ) (s₀ : σ)
    (tl : List (GEvent σ)) :
    (EffectFlowBase.waitForTruthy p s₀ tl).comp = none := by
  cases p <;> rfl

/-- Shape of `abort$` when some action matches `abortOn`: one `abortWith()`
emission at the first matching action's time, completing there. -/
lemma abortObs_of_time {σ ρ : Type} (cfg : ThenCfg σ ρ)
    (tl : List (GEvent σ)) (ta : Nat)
    (h : abortFirstTime cfg tl = some ta) :
    EffectFlowBase.abortObs cfg tl =
      ⟨[(ta, mkAction cfg.abortWith)], some ta, none⟩ := by
  unfold abortFirstTime at h
  obtain ⟨e, he, h2⟩ := Option.map_eq_some'.mp h
  unfold EffectFlowBase.abortObs
  rw [take1_of_head _ e he]
  simp [Obs.mapO, h2]

/-- Shape of `abort$` when no action matches `abortOn`: silent forever. -/
lemma abortObs_of_none {σ ρ : Type} (cfg : ThenCfg σ ρ)
    (tl : List (GEvent σ)) (h : abortFirstTime cfg tl = none) :
    EffectFlowBase.abortObs cfg tl = ⟨[], none, none⟩ := by
  unfold abortFirstTime at h
  have h1 : (ofTypeO cfg.abortOn tl).emits.head? = none :=
    Option.map_eq_none'.mp h
  have h2 : (ofTypeO cfg.abortOn tl).emits = [] :=
    List.head?_eq_none_iff.mp h1
  unfold EffectFlowBase.abortObs
  rw [take1_of_none _ h2]
  simp [Obs.mapO, ofTypeO, Obs.filterO, actionsObs]

/-- The inner observable of `run$` — the async operation started at `t`,
mapped through `onSuccess` and recovered through `catchError` into
`of(onError(err))` — always delivers exactly one action at `t + delay`
and completes there, with no error notification left. -/
lemma inner_run_eq {σ ρ : Type} (cfg : ThenCfg σ ρ) (v : PrereqVal)
    (t : Nat) :
    (((cfg.thenOp v).toObs t).mapO cfg.onSuccess).catchE
        (fun u e => Obs.ofAt u (cfg.onError e)) =
      ⟨[(t + (cfg.thenOp v).delay, outcomeAction cfg v)],
        some (t + (cfg.thenOp v).delay), none⟩ := by
  cases h : (cfg.thenOp v).outcome <;>
    simp [AsyncOp.toObs, Obs.mapO, Obs.catchE, Obs.ofAt, outcomeAction, h]

/-- Shape of `run$` when the prerequisites deliver `(tp, v)`: one outcome
action at `tp + delay`, completing there. -/
lemma runObs_of_prereq {σ ρ : Type} (cfg : ThenCfg σ ρ) (s₀ : σ)
    (tl : List (GEvent σ)) (tp : Nat) (v : PrereqVal)
    (h : prereqFirst cfg s₀ tl = some (tp, v)) :
    EffectFlowBase.runObs cfg s₀ tl =
      ⟨[(tp + (cfg.thenOp v).delay, outcomeAction cfg v)],
        some (tp + (cfg.thenOp v).delay), none⟩ := by
  unfold prereqFirst at h
  unfold EffectFlowBase.runObs EffectFlowBase.prereqObs
  rw [take1_of_head _ _ h]
  simp [Obs.switchMapO, Obs.switchMapGo, inner_run_eq, Obs.maxComp,
    Nat.max_eq_right (Nat.le_add_right tp _)]

/-- Shape of `run$` when the prerequisites never become truthy: silent
forever (`take(1)` keeps waiting, `switchMap` never starts an inner). -/
lemma runObs_of_none {σ ρ : Type} (cfg : ThenCfg σ ρ) (s₀ : σ)
    (tl : List (GEvent σ)) (h : prereqFirst cfg s₀ tl = none) :
    EffectFlowBase.runObs cfg s₀ tl = ⟨[], none, none⟩ := by
  unfold prereqFirst at h
  have h2 := List.head?_eq_none_iff.mp h
  unfold EffectFlowBase.runObs EffectFlowBase.prereqObs
  rw [take1_of_none _ h2]
  simp [Obs.switchMapO, Obs.switchMapGo, waitForTruthy_comp]

/-- Claim C3: if an action matching `abortOn` arrives strictly before the
prerequisites become truthy (or the prerequisites never do), the flow's whole
behaviour is exactly one `abortWith()` emission at the abort's time — after
which the flow completes, releasing the pending prerequisite subscription —
and the async operation in `cfg.then` is never invoked. -/
theorem C3_abort_precedence {σ ρ : Type} (cfg : ThenCfg σ ρ) (s₀ : σ)
    (tl : List (GEvent σ)) (ta : Nat)
    (ha : abortFirstTime cfg tl = some ta)
    (hb : ∀ p ∈ prereqFirst cfg s₀ tl, ta < p.1) :
    EffectFlowBase.«then» cfg s₀ tl =
      ⟨[(ta, mkAction cfg.abortWith)], some ta, none⟩ ∧
    asyncInvoked cfg s₀ tl = false := by
  have hab := abortObs_of_time cfg tl ta ha
  unfold EffectFlowBase.«then»
  cases hp : prereqFirst cfg s₀ tl with
  | none =>
      rw [hab, runObs_of_none cfg s₀ tl hp]
      exact ⟨by simp [Obs.race], by simp [asyncInvoked, hp]⟩
  | some pv =>
      obtain ⟨tp, v⟩ := pv
      have hlt : ta < tp := hb (tp, v) (by simp [hp])
      rw [hab, runObs_of_prereq cfg s₀ tl tp v hp]
      constructor
      · have hle : ta ≤ tp + (cfg.thenOp v).delay :=
          le_of_lt (lt_of_lt_of_le hlt (Nat.le_add_right tp _))
        simp [Obs.race, hle]
      · simp only [asyncInvoked, hp, ha]
        simp [Nat.not_lt.mpr (le_of_lt hlt)]

/-- Witness for C3: abort at time 1, prerequisite truthy only at time 2 —
the flow emits only `ABORTED` at time 1 and the async work never starts. -/
theorem C3_abort_precedence_witness :
    abortFirstTime exCfgOk [exAbort, .setState (JSVal.num 7)] = some 1 ∧
    (∀ p ∈ prereqFirst exCfgOk JSVal.undef
        [exAbort, .setState (JSVal.num 7)], 1 < p.1) ∧
    (EffectFlowBase.«then» exCfgOk JSVal.undef
        [exAbort, .setState (JSVal.num 7)] =
      ⟨[(1, mkAction exCfgOk.abortWith)], some 1, none⟩ ∧
     asyncInvoked exCfgOk JSVal.undef
        [exAbort, .setState (JSVal.num 7)] = false) :=
  ⟨by decide, by decide,
    C3_abort_precedence exCfgOk JSVal.undef
      [exAbort, .setState (JSVal.num 7)] 1 (by decide) (by decide)⟩

/-- Claim C6: when the prerequisites deliver at `tp` and no abort action
occurs before the async operation's result (none at all, or only after
`tp + delay`), the flow's whole behaviour is exactly one outcome action at
`tp + delay`: the `onSuccess` mapping of the result when the operation
succeeds, the `onError` mapping of the error when it fails — the error is
recovered, never re-thrown (the flow carries no error notification). -/
theorem C6_success_error_mapping {σ ρ : Type} (cfg : ThenCfg σ ρ) (s₀ : σ)
    (tl : List (GEvent σ)) (tp : Nat) (v : PrereqVal)
    (hp : prereqFirst cfg s₀ tl = some (tp, v))
    (ha : ∀ ta ∈ abortFirstTime cfg tl,
      tp + (cfg.thenOp v).delay < ta) :
    EffectFlowBase.«then» cfg s₀ tl =
      ⟨[(tp + (cfg.thenOp v).delay, outcomeAction cfg v)],
        some (tp + (cfg.thenOp v).delay), none⟩ ∧
    (∀ r, (cfg.thenOp v).outcome = .ok r →
      outcomeAction cfg v = cfg.onSuccess r) ∧
    (∀ e, (cfg.thenOp v).outcome = .error e →
      outcomeAction cfg v = cfg.onError e) := by
  refine ⟨?_, ?_, ?_⟩
  · have hrun := runObs_of_prereq cfg s₀ tl tp v hp
    unfold EffectFlowBase.«then»
    cases hab : abortFirstTime cfg tl with
    | none =>
        rw [hrun, abortObs_of_none cfg tl hab]
        simp [Obs.race]
    | some ta =>
        have hlt := ha ta (by simp [hab])
        rw [hrun, abortObs_of_time cfg tl ta hab]
        simp [Obs.race, Nat.not_le.mpr hlt]
  · intro r hr; simp [outcomeAction, hr]
  · intro e he; simp [outcomeAction, he]

/-- Witness for C6 on the error branch: prerequisite truthy at time 1, the
async operation rejects after 5 units with no abort anywhere — the flow
emits exactly the `onError` mapping at time 6. -/
theorem C6_success_error_mapping_witness :
    prereqFirst exCfgErr JSVal.undef [.setState (JSVal.num 7)] =
      some (1, Sum.inl (JSVal.num 7)) ∧
    (∀ ta ∈ abortFirstTime exCfgErr
        ([.setState (JSVal.num 7)] : List (GEvent JSVal)),
      1 + (exCfgErr.thenOp (Sum.inl (JSVal.num 7))).delay < ta) ∧
    (EffectFlowBase.«then» exCfgErr JSVal.undef [.setState (JSVal.num 7)] =
      ⟨[(1 + (exCfgErr.thenOp (Sum.inl (JSVal.num 7))).delay,
          outcomeAction exCfgErr (Sum.inl (JSVal.num 7)))],
        some (1 + (exCfgErr.thenOp (Sum.inl (JSVal.num 7))).delay),
        none⟩ ∧
     (∀ r, (exCfgErr.thenOp (Sum.inl (JSVal.num 7))).outcome = .ok r →
       outcomeAction exCfgErr (Sum.inl (JSVal.num 7)) =
         exCfgErr.onSuccess r) ∧
     (∀ e, (exCfgErr.thenOp (Sum.inl (JSVal.num 7))).outcome = .error e →
       outcomeAction exCfgErr (Sum.inl (JSVal.num 7)) =
         exCfgErr.onError e)) :=
  ⟨by decide, by decide,
    C6_success_error_mapping exCfgErr JSVal.undef [.setState (JSVal.num 7)]
      1 (Sum.inl (JSVal.num 7)) (by decide) (by decide)⟩

/-- Counterexample to claim C1 as stated: with the prerequisite already
truthy at subscription time the async operation begins at time 0 and would
deliver `onSuccess` at time 5, yet an abort action dispatched at time 1 —
strictly during the async operation's execution — wins the race (the first
raced *emission* wins, and `run$` only emits at async completion), so the
flow publishes `abortWith()` and not the `onSuccess` mapping. -/
theorem C1_counterexample :
    prereqFirst exCfgOk (JSVal.num 1) [exAbort] =
      some (0, Sum.inl (JSVal.num 1)) ∧
    abortFirstTime exCfgOk [exAbort] = some 1 ∧
    asyncInvoked exCfgOk (JSVal.num 1) [exAbort] = true ∧
    (0 : Nat) < 1 ∧
    1 < 0 + (exCfgOk.thenOp (Sum.inl (JSVal.num 1))).delay ∧
    (EffectFlowBase.«then» exCfgOk (JSVal.num 1) [exAbort]).emits =
      [(1, mkAction "ABORTED")] ∧
    (EffectFlowBase.«then» exCfgOk (JSVal.num 1) [exAbort]).emits ≠
      [(0 + (exCfgOk.thenOp (Sum.inl (JSVal.num 1))).delay,
        exCfgOk.onSuccess (JSVal.num 42))] := by decide

/-- Claim C1 as amended: an abort action observed after the async operation
has begun (the prerequisites delivered at `tp < ta`) but before its result is
emitted (`ta < tp + delay`) cancels the flow: the in-flight async work is
unsubscribed and the flow's whole behaviour is exactly one `abortWith()`
emission at the abort's time — the `onSuccess`/`onError` mapping is only
published when no abort precedes the async result. -/
theorem C1_amended_abort_during_flight {σ ρ : Type} (cfg : ThenCfg σ ρ)
    (s₀ : σ) (tl : List (GEvent σ)) (tp : Nat) (v : PrereqVal) (ta : Nat)
    (hp : prereqFirst cfg s₀ tl = some (tp, v))
    (ha : abortFirstTime cfg tl = some ta)
    (h1 : tp < ta) (h2 : ta < tp + (cfg.thenOp v).delay) :
    asyncInvoked cfg s₀ tl = true ∧
    EffectFlowBase.«then» cfg s₀ tl =
      ⟨[(ta, mkAction cfg.abortWith)], some ta, none⟩ := by
  constructor
  · simp [asyncInvoked, hp, ha, h1]
  · unfold EffectFlowBase.«then»
    rw [abortObs_of_time cfg tl ta ha, runObs_of_prereq cfg s₀ tl tp v hp]
    simp [Obs.race, le_of_lt h2]

/-- Witness for the amended C1 at the counterexample's input. -/
theorem C1_amended_witness :
    prereqFirst exCfgOk (JSVal.num 1) [exAbort] =
      some (0, Sum.inl (JSVal.num 1)) ∧
    abortFirstTime exCfgOk [exAbort] = some 1 ∧
    (0 : Nat) < 1 ∧
    1 < 0 + (exCfgOk.thenOp (Sum.inl (JSVal.num 1))).delay ∧
    (asyncInvoked exCfgOk (JSVal.num 1) [exAbort] = true ∧
     EffectFlowBase.«then» exCfgOk (JSVal.num 1) [exAbort] =
       ⟨[(1, mkAction exCfgOk.abortWith)], some 1, none⟩) :=
  ⟨by decide, by decide, by decide, by decide,
    C1_amended_abort_during_flight exCfgOk (JSVal.num 1) [exAbort] 0
      (Sum.inl (JSVal.num 1)) 1 (by decide) (by decide) (by decide)
      (by decide)⟩
